import Mathlib

/-
Verification of the guestbook request-handler service
(src/docker/backend/main.py) against its specification.

The service exposes three operations over a document store:
  * GET  /api/health  -> {"status": "ok"}
  * POST /api/names   -> validates and inserts a trimmed name
  * GET  /api/names   -> lists all stored names

We embed the document store as a list of documents (each document a
key-value association list), model Python's str.strip over character
lists, and translate each handler directly from the source.
-/

set_option autoImplicit false

namespace Guestbook

/-- Whitespace as recognised by Python's str.strip, i.e. the code points
on which str.isspace holds: tab through carriage return (U+0009-U+000D),
the information separators U+001C-U+001F, space, next line U+0085,
no-break space U+00A0, ogham space mark U+1680, the en-quad..hair-space
range U+2000-U+200A, line separator U+2028, paragraph separator U+2029,
narrow no-break space U+202F, medium mathematical space U+205F and
ideographic space U+3000. -/
def pyIsSpace (c : Char) : Bool :=
  (9 ≤ c.toNat && c.toNat ≤ 13) || c.toNat = 32
    || (28 ≤ c.toNat && c.toNat ≤ 31) || c.toNat = 0x85 || c.toNat = 0xa0
    || c.toNat = 0x1680 || (0x2000 ≤ c.toNat && c.toNat ≤ 0x200a)
    || c.toNat = 0x2028 || c.toNat = 0x2029 || c.toNat = 0x202f
    || c.toNat = 0x205f || c.toNat = 0x3000

/-- Strip leading and trailing whitespace from a character list: drop the
leading whitespace run, then drop the trailing run (via reverse). -/
def stripChars (l : List Char) : List Char :=
  ((l.dropWhile pyIsSpace).reverse.dropWhile pyIsSpace).reverse

/-- Embedding of Python's `s.strip()` on strings (main.py lines 34-37). -/
def pyStrip (s : String) : String :=
  String.mk (stripChars s.data)

/-- A stored document: a key-value record, as held by the `names`
collection. Field access can fail when a key is absent, like a Python
dict subscript. -/
structure Doc where
  fields : List (String × String)
deriving DecidableEq, Repr

/-- Field access `d[k]`: `none` models a Python KeyError. -/
def Doc.get (d : Doc) (k : String) : Option String :=
  d.fields.lookup k

/-- The state of the `names` collection, in insertion order. -/
abbrev Store := List Doc

/-- Request body of POST /api/names: the pydantic model `NameEntry`. -/
structure NameEntry where
  name : String
deriving DecidableEq, Repr

/-- Response payload of GET /api/health. -/
structure HealthResp where
  status : String
deriving DecidableEq, Repr

/-- Success payload of POST /api/names. -/
structure AddOk where
  message : String
  name : String
deriving DecidableEq, Repr

/-- Outcome of POST /api/names: the success payload, or the
`HTTPException(status_code, detail)` raised on validation failure. -/
inductive AddResult where
  | ok : AddOk → AddResult
  | httpError : Nat → String → AddResult
deriving DecidableEq, Repr

/-- Handler of GET /api/health (main.py lines 27-29). It never touches
the store; we thread the store through unchanged to state frame
properties. -/
def health (s : Store) : Store × HealthResp :=
  (s, ⟨"ok"⟩)

/-- Handler of POST /api/names (main.py lines 32-37):
`if not entry.name.strip(): raise HTTPException(400, "Name cannot be empty")`,
otherwise `insert_one({"name": entry.name.strip()})` and return the
confirmation payload. `insert_one` appends one document to the
collection. -/
def add_name (entry : NameEntry) (s : Store) : Store × AddResult :=
  if pyStrip entry.name = "" then
    (s, .httpError 400 "Name cannot be empty")
  else
    (s ++ [⟨[("name", pyStrip entry.name)]⟩], .ok ⟨"Name added", pyStrip entry.name⟩)

/-- The projection `{"_id": 0, "name": 1}` used by `find` in
get_names: keep only the `name` field of a document. -/
def projectName (d : Doc) : Doc :=
  ⟨d.fields.filter (fun kv => kv.1 == "name")⟩

/-- `names_collection.find({}, {"_id": 0, "name": 1})`: every document,
projected to its `name` field, in store order. -/
def findAll (s : Store) : List Doc :=
  s.map projectName

/-- The comprehension `[n["name"] for n in names]` (main.py line 43):
`none` models the KeyError raised when some document lacks `name`. -/
def namesOf : List Doc → Option (List String)
  | [] => some []
  | d :: ds =>
    match d.get "name", namesOf ds with
    | some v, some vs => some (v :: vs)
    | _, _ => none

/-- Handler of GET /api/names (main.py lines 40-43): query all documents
and return their `name` values. The store is unchanged. -/
def get_names (s : Store) : Store × Option (List String) :=
  (s, namesOf (findAll s))

/-- add_name against a fallible store collaborator: `ins` is the
`insert_one` call, which may fail (connectivity loss, timeout). The
handler has no try/except, so a store failure propagates unchanged. -/
def add_nameF {ε : Type} (ins : Store → Doc → Except ε Store)
    (entry : NameEntry) (s : Store) : Except ε (Store × AddResult) :=
  if pyStrip entry.name = "" then
    .ok (s, .httpError 400 "Name cannot be empty")
  else
    match ins s ⟨[("name", pyStrip entry.name)]⟩ with
    | .error e => .error e
    | .ok s₂ => .ok (s₂, .ok ⟨"Name added", pyStrip entry.name⟩)

/-- get_names against a fallible store collaborator: `query` is the
`find` call, which may fail. The handler has no try/except, so a store
failure propagates unchanged. -/
def get_namesF {ε : Type} (query : Store → Except ε (List Doc))
    (s : Store) : Except ε (Store × Option (List String)) :=
  match query s with
  | .error e => .error e
  | .ok docs => .ok (s, namesOf docs)

/-- Store states reachable from the empty store by any sequence of the
service's three operations. -/
inductive Reachable : Store → Prop
  | empty : Reachable []
  | stepHealth {s : Store} : Reachable s → Reachable (health s).1
  | stepAdd {s : Store} (entry : NameEntry) : Reachable s → Reachable (add_name entry s).1
  | stepList {s : Store} : Reachable s → Reachable (get_names s).1

/-! ### Helper lemmas about stripping -/

theorem head_dropWhile_false (p : Char → Bool) :
    ∀ (l : List Char) (a : Char) (t : List Char), l.dropWhile p = a :: t → p a = false := by
  intro l
  induction l with
  | nil => intro a t h; simp [List.dropWhile] at h
  | cons x xs ih =>
    intro a t h
    rw [List.dropWhile_cons] at h
    by_cases hx : p x
    · rw [if_pos hx] at h
      exact ih a t h
    · rw [if_neg hx] at h
      cases h
      simpa using hx

theorem dropWhile_is_suffix (p : Char → Bool) (l : List Char) :
    ∃ u, l = u ++ l.dropWhile p := by
  induction l with
  | nil => exact ⟨[], rfl⟩
  | cons x xs ih =>
    rw [List.dropWhile_cons]
    by_cases hx : p x
    · rw [if_pos hx]
      obtain ⟨u, hu⟩ := ih
      exact ⟨x :: u, by rw [List.cons_append, ← hu]⟩
    · rw [if_neg hx]
      exact ⟨[], rfl⟩

theorem dropWhile_eq_self_of_head (p : Char → Bool) (l : List Char)
    (h : ∀ a t, l = a :: t → p a = false) : l.dropWhile p = l := by
  cases l with
  | nil => rfl
  | cons x xs =>
    rw [List.dropWhile_cons, if_neg]
    simp [h x xs rfl]

theorem stripChars_head (l : List Char) (a : Char) (t : List Char)
    (h : stripChars l = a :: t) : pyIsSpace a = false := by
  obtain ⟨u, hu⟩ := dropWhile_is_suffix pyIsSpace (l.dropWhile pyIsSpace).reverse
  have hl : l.dropWhile pyIsSpace = stripChars l ++ u.reverse := by
    have := congrArg List.reverse hu
    simpa [stripChars, List.reverse_append] using this
  rw [h] at hl
  exact head_dropWhile_false pyIsSpace l a (t ++ u.reverse) (by simpa using hl)

theorem stripChars_last (l : List Char) (a : Char) (t : List Char)
    (h : (stripChars l).reverse = a :: t) : pyIsSpace a = false := by
  have h₂ : (l.dropWhile pyIsSpace).reverse.dropWhile pyIsSpace = a :: t := by
    simpa [stripChars] using h
  exact head_dropWhile_false pyIsSpace _ a t h₂

theorem stripChars_idem (l : List Char) : stripChars (stripChars l) = stripChars l := by
  have h₁ : (stripChars l).dropWhile pyIsSpace = stripChars l :=
    dropWhile_eq_self_of_head _ _ (fun a t h => stripChars_head l a t h)
  have h₂ : (stripChars l).reverse.dropWhile pyIsSpace = (stripChars l).reverse :=
    dropWhile_eq_self_of_head _ _ (fun a t h => stripChars_last l a t h)
  calc stripChars (stripChars l)
      = ((stripChars l).reverse.dropWhile pyIsSpace).reverse := by
        rw [stripChars, h₁]
    _ = stripChars l := by rw [h₂, List.reverse_reverse]

theorem pyStrip_idem (s : String) : pyStrip (pyStrip s) = pyStrip s := by
  show String.mk (stripChars (stripChars s.data)) = String.mk (stripChars s.data)
  rw [stripChars_idem]

/-! ### Helper lemmas about documents and listing -/

theorem lookup_filter_key (k : String) (l : List (String × String)) :
    (l.filter (fun kv => kv.1 == k)).lookup k = l.lookup k := by
  induction l with
  | nil => rfl
  | cons x xs ih =>
    rcases x with ⟨a, b⟩
    by_cases ha : a = k
    · subst ha
      simp [List.filter_cons, List.lookup, ih]
    · have hk : (k == a) = false := by
        simp [Ne.symm ha]
      have hk₂ : (a == k) = false := by
        simp [ha]
      simp [List.filter_cons, List.lookup, hk, hk₂, ih]

theorem projectName_get (d : Doc) : (projectName d).get "name" = d.get "name" :=
  lookup_filter_key "name" d.fields

theorem namesOf_wf (docs : List Doc) (h : ∀ d ∈ docs, (Doc.get d "name").isSome) :
    namesOf docs = some (docs.map (fun d => (Doc.get d "name").getD "")) := by
  induction docs with
  | nil => rfl
  | cons d ds ih =>
    obtain ⟨v, hv⟩ := Option.isSome_iff_exists.mp (h d (by simp))
    have hds := ih (fun x hx => h x (by simp [hx]))
    simp [namesOf, hv, hds]

theorem namesOf_append (ys : List Doc) (ly : List String) (hy : namesOf ys = some ly) :
    ∀ (xs : List Doc) (lx : List String), namesOf xs = some lx →
      namesOf (xs ++ ys) = some (lx ++ ly) := by
  intro xs
  induction xs with
  | nil =>
    intro lx hx
    simp [namesOf] at hx
    subst hx
    simpa using hy
  | cons d ds ih =>
    intro lx hx
    cases hd : Doc.get d "name" with
    | none => simp [namesOf, hd] at hx
    | some v =>
      cases hds : namesOf ds with
      | none => simp [namesOf, hd, hds] at hx
      | some vs =>
        simp [namesOf, hd, hds] at hx
        subst hx
        simp [List.cons_append, namesOf, hd, ih vs hds]

/-- The reachability invariant: every stored document carries a `name`
field whose value is non-empty even after stripping. -/
theorem store_inv {s : Store} (h : Reachable s) :
    ∀ d ∈ s, ∃ v, Doc.get d "name" = some v ∧ pyStrip v ≠ "" := by
  induction h with
  | empty => simp
  | stepHealth _ ih => simpa [health] using ih
  | stepAdd entry _ ih =>
    by_cases he : pyStrip entry.name = ""
    · simpa [add_name, he] using ih
    · intro d hd
      simp only [add_name, if_neg he, List.mem_append, List.mem_singleton] at hd
      rcases hd with hd | hd
      · exact ih d hd
      · subst hd
        refine ⟨pyStrip entry.name, rfl, ?_⟩
        rw [pyStrip_idem]
        exact he
  | stepList _ ih => simpa [get_names] using ih

theorem store_wf {s : Store} (h : Reachable s) :
    ∀ d ∈ s, (Doc.get d "name").isSome := by
  intro d hd
  obtain ⟨v, hv, _⟩ := store_inv h d hd
  simp [hv]

/-- On a store whose documents all carry a `name` field, listing
succeeds and returns the name values in store order. -/
theorem listNames_eq (s : Store) (h : ∀ d ∈ s, (Doc.get d "name").isSome) :
    (get_names s).2 = some (s.map (fun d => (Doc.get d "name").getD "")) := by
  have hwf : ∀ d ∈ findAll s, (Doc.get d "name").isSome := by
    intro d hd
    simp only [findAll, List.mem_map] at hd
    obtain ⟨d₀, hd₀, rfl⟩ := hd
    rw [projectName_get]
    exact h d₀ hd₀
  show namesOf (findAll s) = _
  rw [namesOf_wf _ hwf]
  congr 1
  simp [findAll, List.map_map, Function.comp_def, projectName_get]

/-! ### The claims -/

/-- Claim C1: for every request body whose name is non-empty after
trimming, and every prior store state, add_name succeeds, appends
exactly one NameRecord holding the trimmed input, and returns the
payload {message: "Name added", name: trimmed input}; a subsequent
listing includes the trimmed form exactly once more than before. -/
theorem c1_add_success (entry : NameEntry) (s : Store) (l : List String)
    (hname : pyStrip entry.name ≠ "")
    (hlist : (get_names s).2 = some l) :
    add_name entry s
      = (s ++ [⟨[("name", pyStrip entry.name)]⟩],
         AddResult.ok ⟨"Name added", pyStrip entry.name⟩)
    ∧ (get_names (add_name entry s).1).2 = some (l ++ [pyStrip entry.name])
    ∧ (l ++ [pyStrip entry.name]).count (pyStrip entry.name)
        = l.count (pyStrip entry.name) + 1 := by
  have heq : add_name entry s
      = (s ++ [⟨[("name", pyStrip entry.name)]⟩],
         AddResult.ok ⟨"Name added", pyStrip entry.name⟩) := by
    simp [add_name, hname]
  refine ⟨heq, ?_, ?_⟩
  · rw [heq]
    show namesOf (findAll (s ++ [⟨[("name", pyStrip entry.name)]⟩])) = _
    rw [findAll, List.map_append]
    exact namesOf_append (List.map projectName [⟨[("name", pyStrip entry.name)]⟩])
      [pyStrip entry.name] rfl (List.map projectName s) l hlist
  · simp

theorem c1_witness :
    add_name ⟨"  Alice  "⟩ []
      = ([⟨[("name", pyStrip "  Alice  ")]⟩],
         AddResult.ok ⟨"Name added", pyStrip "  Alice  "⟩)
    ∧ (get_names (add_name ⟨"  Alice  "⟩ []).1).2 = some ([] ++ [pyStrip "  Alice  "])
    ∧ ([] ++ [pyStrip "  Alice  "]).count (pyStrip "  Alice  ")
        = List.count (pyStrip "  Alice  ") [] + 1 :=
  c1_add_success ⟨"  Alice  "⟩ [] [] (by decide) rfl

/-- Claim C2: for every request body whose name is empty or whitespace
only after trimming, add_name fails with HTTP 400 and detail
"Name cannot be empty", and the store is unchanged. -/
theorem c2_reject_empty (entry : NameEntry) (s : Store)
    (h : pyStrip entry.name = "") :
    add_name entry s = (s, AddResult.httpError 400 "Name cannot be empty") := by
  simp [add_name, h]

theorem c2_witness :
    add_name ⟨"   "⟩ [] = ([], AddResult.httpError 400 "Name cannot be empty") :=
  c2_reject_empty ⟨"   "⟩ [] (by decide)

/-- Claim C3: in every store state reachable from the empty store by the
service's operations, every stored record carries a name value that is
non-empty after trimming. -/
theorem c3_stored_names_nonempty {s : Store} (h : Reachable s)
    (d : Doc) (hd : d ∈ s) :
    ∃ v, Doc.get d "name" = some v ∧ pyStrip v ≠ "" :=
  store_inv h d hd

theorem c3_witness :
    ∃ v, Doc.get ⟨[("name", pyStrip "Alice")]⟩ "name" = some v ∧ pyStrip v ≠ "" :=
  c3_stored_names_nonempty (Reachable.stepAdd ⟨"Alice"⟩ Reachable.empty) _ (by decide)

/-- Claim C4: a failure raised by the store collaborator during the
insert of add_name or the query of get_names is not caught, translated
or retried: the same error propagates unchanged to the caller and no
fallback result is produced. -/
theorem c4_store_failure_propagates {ε : Type}
    (ins : Store → Doc → Except ε Store) (query : Store → Except ε (List Doc))
    (entry : NameEntry) (s : Store) (e₁ e₂ : ε)
    (hname : pyStrip entry.name ≠ "")
    (hins : ins s ⟨[("name", pyStrip entry.name)]⟩ = Except.error e₁)
    (hquery : query s = Except.error e₂) :
    add_nameF ins entry s = Except.error e₁
    ∧ get_namesF query s = Except.error e₂ := by
  constructor
  · simp [add_nameF, hname, hins]
  · simp [get_namesF, hquery]

theorem c4_witness :
    add_nameF (fun _ _ => Except.error "store down") ⟨"Bob"⟩ []
      = Except.error "store down"
    ∧ get_namesF (fun _ => Except.error "store down") []
      = Except.error "store down" :=
  c4_store_failure_propagates (fun _ _ => Except.error "store down")
    (fun _ => Except.error "store down") ⟨"Bob"⟩ [] "store down" "store down"
    (by decide) rfl rfl

/-- Claim C5: for every store state (every document being a NameRecord,
i.e. carrying a name field), get_names takes no input beyond the store,
leaves it unchanged, and returns all name values as an ordered
sequence; on the empty store it returns the empty sequence, never an
error. -/
theorem c5_list_returns_all (s : Store)
    (h : ∀ d ∈ s, (Doc.get d "name").isSome) :
    get_names s = (s, some (s.map (fun d => (Doc.get d "name").getD ""))) := by
  have h₂ := listNames_eq s h
  exact Prod.ext rfl h₂

theorem c5_witness :
    get_names [] = ([], some []) :=
  c5_list_returns_all [] (by simp)

/-- Claim C6: no operation mutates or deletes an existing record: health
and get_names leave the store identical, and add_name only ever appends,
so the prior store is a prefix of the new one. -/
theorem c6_no_mutation_no_deletion (entry : NameEntry) (s : Store) :
    (health s).1 = s ∧ (get_names s).1 = s
    ∧ ∃ t, (add_name entry s).1 = s ++ t := by
  refine ⟨rfl, rfl, ?_⟩
  by_cases h : pyStrip entry.name = ""
  · exact ⟨[], by simp [add_name, h]⟩
  · exact ⟨[⟨[("name", pyStrip entry.name)]⟩], by simp [add_name, h]⟩

/-- Claim C7: listing is idempotent and read-only: two consecutive
get_names calls with no intervening add return the same sequence, and
neither call changes the store. -/
theorem c7_list_idempotent (s : Store) :
    (get_names ((get_names s).1)).2 = (get_names s).2
    ∧ (get_names s).1 = s
    ∧ (get_names ((get_names s).1)).1 = s :=
  ⟨rfl, rfl, rfl⟩

/-- Claim C8: no uniqueness constraint: from the empty store, adding
"Bob" twice succeeds both times and a subsequent listing returns
["Bob", "Bob"]. -/
theorem c8_duplicates_permitted :
    (add_name ⟨"Bob"⟩ []).2 = AddResult.ok ⟨"Name added", "Bob"⟩
    ∧ (add_name ⟨"Bob"⟩ (add_name ⟨"Bob"⟩ []).1).2
        = AddResult.ok ⟨"Name added", "Bob"⟩
    ∧ (get_names (add_name ⟨"Bob"⟩ (add_name ⟨"Bob"⟩ []).1).1).2
        = some ["Bob", "Bob"] := by
  decide

/-- Claim C9: the health check returns the fixed payload
{status: "ok"} for every store state, leaves the store unchanged, and
cannot fail. -/
theorem c9_health_fixed (s : Store) : health s = (s, ⟨"ok"⟩) := rfl

/-- Claim C10: in every reachable store state, every stored document
contains a name field, so the per-document name access performed by
get_names never fails: its KeyError branch is unreachable. -/
theorem c10_name_access_never_fails {s : Store} (h : Reachable s)
    (d : Doc) (hd : d ∈ s) :
    (Doc.get d "name").isSome ∧ ((get_names s).2).isSome := by
  refine ⟨store_wf h d hd, ?_⟩
  rw [listNames_eq s (store_wf h)]
  rfl

theorem c10_witness :
    (Doc.get ⟨[("name", pyStrip "Alice")]⟩ "name").isSome
    ∧ ((get_names (add_name ⟨"Alice"⟩ []).1).2).isSome :=
  c10_name_access_never_fails (Reachable.stepAdd ⟨"Alice"⟩ Reachable.empty) _ (by decide)

end Guestbook
